import Mathlib

/-!
Verification of the experiment-description merge/patch/aggregation algorithms
(`ibllib/io/session_params.py`) and of the data-handler upload/cleanup logic
(`ibllib/oneibl/data_handlers.py`), over a shallow embedding of the YAML
document values the code manipulates.

Documents are modelled as insertion-ordered association lists (Python dicts
preserve insertion order); YAML scalars are strings, integers and null.
Python `==` between values compares dicts without regard to key order, which
we embed by comparing canonical (key-sorted) forms.
-/

namespace Ibllib

/-- Shallow embedding of the YAML values handled by `session_params.py`:
null, strings, integers, lists, and insertion-ordered maps.  The module's
documentation states the documents contain only lists, dicts, None and str;
integers also occur (for example `protocol_number`). -/
inductive Val where
  | vnone : Val
  | str : String → Val
  | int : Int → Val
  | list : List Val → Val
  | dict : List (String × Val) → Val

/-- An experiment-description document: a Python dict in insertion order. -/
abbrev Doc := List (String × Val)

/-- Python `d[k]` / `d.get(k)`: value at the first matching key. -/
def getKey (d : Doc) (k : String) : Option Val :=
  match d with
  | [] => none
  | (k', v) :: rest => if k' = k then some v else getKey rest k

/-- Python `d[k] = v`: replace the value in place if the key exists
(insertion order kept), otherwise append the new key at the end. -/
def setKey (d : Doc) (k : String) (v : Val) : Doc :=
  match d with
  | [] => [(k, v)]
  | (k', v') :: rest => if k' = k then (k, v) :: rest else (k', v') :: setKey rest k v

/-- Python `k in d`. -/
def hasKeyB (d : Doc) (k : String) : Bool := (getKey d k).isSome

/-- Python truthiness of a value: None, 0, empty string, empty list and
empty dict are falsy. -/
def Val.truthy : Val → Bool
  | .vnone => false
  | .str s => !s.isEmpty
  | .int n => decide (n ≠ 0)
  | .list xs => !xs.isEmpty
  | .dict d => !d.isEmpty

/-- Byte-wise comparison of strings, used only to pick a canonical order of
dict keys when embedding Python's order-insensitive dict equality. -/
def charsLe : List Char → List Char → Bool
  | [], _ => true
  | _ :: _, [] => false
  | a :: as, b :: bs =>
    if a.toNat < b.toNat then true
    else if b.toNat < a.toNat then false
    else charsLe as bs

def strLe (a b : String) : Bool := charsLe a.data b.data

/-- Insertion into a key-sorted association list. -/
def insortKey (kv : String × Val) : Doc → Doc
  | [] => [kv]
  | p :: rest => if strLe kv.1 p.1 then kv :: p :: rest else p :: insortKey kv rest

/-- Key-sort of an association list, for canonical forms. -/
def sortKeys (d : Doc) : Doc := d.foldr insortKey []

mutual
/-- Canonical form of a value: dict entries sorted by key at every level.
Two values are related by Python `==` exactly when their canonical forms
are structurally equal (list order and scalar values stay significant). -/
def canon : Val → Val
  | .vnone => .vnone
  | .str s => .str s
  | .int n => .int n
  | .list xs => .list (canonList xs)
  | .dict d => .dict (sortKeys (canonDoc d))
def canonList : List Val → List Val
  | [] => []
  | x :: xs => canon x :: canonList xs
def canonDoc : Doc → Doc
  | [] => []
  | (k, v) :: rest => (k, canon v) :: canonDoc rest
end

mutual
/-- Structural Boolean equality of values. -/
def valBeq : Val → Val → Bool
  | .vnone, .vnone => true
  | .str a, .str b => a == b
  | .int a, .int b => a == b
  | .list xs, .list ys => listBeq xs ys
  | .dict d1, .dict d2 => docBeq d1 d2
  | _, _ => false
def listBeq : List Val → List Val → Bool
  | [], [] => true
  | x :: xs, y :: ys => valBeq x y && listBeq xs ys
  | _, _ => false
def docBeq : Doc → Doc → Bool
  | [], [] => true
  | (k, v) :: xs, (l, w) :: ys => k == l && valBeq v w && docBeq xs ys
  | _, _ => false
end

/-- Embedding of Python `a == b` on document values: structural equality of
canonical forms, so dict key order is irrelevant while list order counts. -/
def pyEq (a b : Val) : Bool := valBeq (canon a) (canon b)

/-- Python `x in s` for a collection compared with `==`. -/
def pyMem (x : Val) (l : List Val) : Bool := l.any (fun y => pyEq x y)

/-- Python `set(l)`: duplicates (under `==`) removed, first occurrence kept.
CPython iterates a set in hash order; no claim depends on that order, and we
take first-occurrence order as the embedding's set order. -/
def dedupPy (l : List Val) : List Val :=
  l.foldl (fun acc x => if pyMem x acc then acc else acc ++ [x]) []

/-- Python `set(bs) - set(prev)` in the embedding's set order. -/
def pySetDiff (bs prev : List Val) : List Val :=
  (dedupPy bs).filter (fun x => !pyMem x prev)

/-- Python `{**x, **y}`: x's entries in order with values overridden by y,
then y's new keys appended in y's order. -/
def pyUpdate (x y : Doc) : Doc := y.foldl (fun acc kv => setKey acc kv.1 kv.2) x

/-- Coercion used where the source writes `list(a.get(k, []))` and the
surrounding schema guarantees a list; values of any other shape (outside the
schema, where CPython would iterate a dict's keys or a string's characters,
or raise) are modelled as the empty list. -/
def asListV : Option Val → List Val
  | some (.list xs) => xs
  | _ => []

/-- Coercion used where the source writes `a.get(k, {})` expecting a dict;
non-dict values (outside the schema, where CPython would raise) are modelled
as the empty dict. -/
def asDictV : Option Val → Doc
  | some (.dict d) => d
  | _ => []

theorem getKey_setKey_self (d : Doc) (k : String) (v : Val) :
    getKey (setKey d k v) k = some v := by
  induction d with
  | nil => simp [getKey, setKey]
  | cons p rest ih =>
    by_cases h : p.1 = k <;> simp [getKey, setKey, h, ih]

theorem getKey_setKey_ne (d : Doc) (k k' : String) (v : Val) (h : k' ≠ k) :
    getKey (setKey d k' v) k = getKey d k := by
  induction d with
  | nil => simp [getKey, setKey, h]
  | cons p rest ih =>
    by_cases h1 : p.1 = k' <;> by_cases h2 : p.1 = k <;>
      simp_all [getKey, setKey]

theorem setKey_ne_nil (d : Doc) (k : String) (v : Val) : setKey d k v ≠ [] := by
  cases d with
  | nil => simp [setKey]
  | cons p rest => by_cases h : p.1 = k <;> simp [setKey, h]

/-! ## merge_params (`session_params.py`, lines 147-179) -/

/-- Error raised by the `assert` in `merge_params` when both documents carry
a differing `sync` entry. -/
inductive MergeErr where
  | syncConflict

/-- Guard of the source's `assert k not in a or a[k] == b[k]`, checked for
the key `sync` against the current (possibly already updated) `a`. -/
def syncOk (a : Doc) (k : String) (v : Val) : Bool :=
  if k = "sync" then
    match getKey a k with
    | none => true
    | some w => pyEq w v
  else true

/-- Value stored at key `k` by one iteration of the `merge_params` loop,
given the previous value of `a` at `k`:
list-valued keys concatenate (with set-difference deduplication except for
`tasks`), dict-valued keys get a one-level `{**old, **new}` update, and
anything else overwrites. -/
def mergedValueAt (old : Option Val) (k : String) (v : Val) : Val :=
  match v with
  | .list bs =>
    .list (asListV old ++ (if k = "tasks" then bs else pySetDiff bs (asListV old)))
  | .dict d => .dict (pyUpdate (asDictV old) d)
  | v => v

/-- One iteration of the `merge_params` loop body (after the assert). -/
def mergeKey (a : Doc) (k : String) (v : Val) : Doc :=
  setKey a k (mergedValueAt (getKey a k) k v)

/-- Embedding of `merge_params(a, b)`: iterate over `b`'s entries, updating
`a` in place; the `sync` assert aborts with an error. -/
def mergeParams : Doc → Doc → Except MergeErr Doc
  | a, [] => .ok a
  | a, (k, v) :: rest =>
    if syncOk a k v then mergeParams (mergeKey a k v) rest
    else .error .syncConflict

/-- Whether an embedded call returned normally. -/
def exOk {ε α : Type} : Except ε α → Bool
  | .ok _ => true
  | .error _ => false

theorem getKey_mergeKey_ne (a : Doc) (k k' : String) (v : Val) (h : k' ≠ k) :
    getKey (mergeKey a k' v) k = getKey a k :=
  getKey_setKey_ne a k k' _ h

theorem mergeParams_keep (b : Doc) : ∀ (a m : Doc) (k : String),
    mergeParams a b = .ok m → (∀ p ∈ b, p.1 ≠ k) → getKey m k = getKey a k := by
  induction b with
  | nil =>
    intro a m k hm _
    simp only [mergeParams] at hm
    cases hm
    rfl
  | cons p rest ih =>
    intro a m k hm hk
    obtain ⟨k0, v0⟩ := p
    simp only [mergeParams] at hm
    by_cases hg : syncOk a k0 v0 <;> simp [hg] at hm
    have h0 : k0 ≠ k := hk (k0, v0) (by simp)
    rw [ih _ _ _ hm (fun p hp => hk p (by simp [hp])), getKey_mergeKey_ne _ _ _ _ h0]

theorem mergeParams_getKey (b : Doc) : ∀ (a m : Doc) (k : String),
    (b.map Prod.fst).Nodup → mergeParams a b = .ok m →
    getKey m k = (match getKey b k with
      | none => getKey a k
      | some v => some (mergedValueAt (getKey a k) k v)) := by
  induction b with
  | nil =>
    intro a m k _ hm
    simp only [mergeParams] at hm
    cases hm
    simp [getKey]
  | cons p rest ih =>
    intro a m k hnd hm
    obtain ⟨k0, v0⟩ := p
    simp only [List.map_cons, List.nodup_cons] at hnd
    obtain ⟨hk0, hndr⟩ := hnd
    simp only [mergeParams] at hm
    by_cases hg : syncOk a k0 v0 <;> simp [hg] at hm
    by_cases he : k0 = k
    · subst he
      have hrest : ∀ p ∈ rest, p.1 ≠ k0 := by
        intro p hp heq
        exact hk0 (by exact List.mem_map.mpr ⟨p, hp, heq⟩)
      rw [mergeParams_keep rest _ _ _ hm hrest]
      simp [getKey, mergeKey, getKey_setKey_self]
    · have := ih _ _ k hndr hm
      rw [getKey_mergeKey_ne _ _ _ _ he] at this
      rw [this]
      simp [getKey, he]

theorem mergeParams_ok_noSync (b : Doc) : ∀ a : Doc,
    (∀ p ∈ b, p.1 ≠ "sync") → exOk (mergeParams a b) = true := by
  induction b with
  | nil => intro a _; rfl
  | cons p rest ih =>
    intro a hk
    obtain ⟨k0, v0⟩ := p
    have h0 : k0 ≠ "sync" := hk (k0, v0) (by simp)
    have hg : syncOk a k0 v0 = true := by simp [syncOk, h0]
    simp only [mergeParams, hg, if_true]
    exact ih _ (fun p hp => hk p (by simp [hp]))

/-- Condition under which the two documents carry conflicting `sync`
entries: both define one and the values differ under Python `==`. -/
def syncConflictB (a b : Doc) : Bool :=
  match getKey a "sync", getKey b "sync" with
  | some w, some v => !pyEq w v
  | _, _ => false

theorem mergeParams_isOk (b : Doc) : ∀ a : Doc, (b.map Prod.fst).Nodup →
    exOk (mergeParams a b) = !syncConflictB a b := by
  induction b with
  | nil =>
    intro a _
    simp [mergeParams, exOk, syncConflictB, getKey]
  | cons p rest ih =>
    intro a hnd
    obtain ⟨k0, v0⟩ := p
    simp only [List.map_cons, List.nodup_cons] at hnd
    obtain ⟨hk0, hndr⟩ := hnd
    by_cases he : k0 = "sync"
    · subst he
      have hrest : ∀ p ∈ rest, p.1 ≠ "sync" := by
        intro p hp heq
        exact hk0 (List.mem_map.mpr ⟨p, hp, heq⟩)
      cases hw : getKey a "sync" with
      | none =>
        have hg : syncOk a "sync" v0 = true := by simp [syncOk, hw]
        simp only [mergeParams, hg, if_true]
        rw [mergeParams_ok_noSync rest _ hrest]
        simp [syncConflictB, hw]
      | some w =>
        by_cases hpe : pyEq w v0 = true
        · have hg : syncOk a "sync" v0 = true := by simp [syncOk, hw, hpe]
          simp only [mergeParams, hg, if_true]
          rw [mergeParams_ok_noSync rest _ hrest]
          simp [syncConflictB, hw, getKey, hpe]
        · have hg : syncOk a "sync" v0 = false := by
            simp only [syncOk, if_pos rfl, hw]
            simpa using hpe
          simp only [mergeParams, hg]
          simp only [Bool.false_eq_true, if_false]
          simp [exOk, syncConflictB, hw, getKey, Bool.not_eq_true] at hpe ⊢
          exact hpe
    · have hg : syncOk a k0 v0 = true := by simp [syncOk, he]
      simp only [mergeParams, hg, if_true]
      rw [ih _ hndr]
      have h1 : getKey (mergeKey a k0 v0) "sync" = getKey a "sync" :=
        getKey_mergeKey_ne _ _ _ _ he
      have h2 : getKey ((k0, v0) :: rest) "sync" = getKey rest "sync" := by
        simp [getKey, he]
      simp [syncConflictB, h1, h2]

/-! ## _patch_file (`session_params.py`, lines 59-81) -/

def SPEC_VERSION : String := "1.0.0"

def digitsToNat (cs : List Char) (acc : Nat) : Nat :=
  match cs with
  | [] => acc
  | c :: rest => digitsToNat rest (acc * 10 + (c.toNat - 48))

def splitDots (cs : List Char) (cur : List Char) : List (List Char) :=
  match cs with
  | [] => [cur.reverse]
  | c :: rest => if c = '.' then cur.reverse :: splitDots rest [] else splitDots rest (c :: cur)

/-- Release-version parse, standing in for `packaging.version.parse`:
dot-separated numeric components.  Pre-release tags and malformed versions
(on which `packaging` raises) are outside the schema and not modelled. -/
def parseVer (s : String) : List Nat := (splitDots s.data []).map (fun p => digitsToNat p 0)

/-- Strict comparison of parsed versions: lexicographic with implicit zero
padding, as `packaging` compares release tuples. -/
def verLt : List Nat → List Nat → Bool
  | _, [] => false
  | [], y :: ys => decide (y ≠ 0) || verLt [] ys
  | x :: xs, y :: ys => decide (x < y) || (decide (x = y) && verLt xs ys)

/-- Version string of a document as `_patch_file` reads it:
`data.get('version', '0')`.  The schema's `version` field is a string; a
non-string value (on which `packaging` would raise) is treated as absent. -/
def versionStrOf (d : Doc) : String :=
  match getKey d "version" with
  | some (.str s) => s
  | _ => "0"

/-- Embedding of `_patch_file(data)`: on a non-empty document whose version
string differs from `SPEC_VERSION`, warn when the version is newer, convert
a legacy dict-shaped `tasks` to a list of single-key dicts when the version
is at most `0.1.0`, and stamp the current spec version. -/
def patchFile (data : Doc) : Doc :=
  match data with
  | [] => []
  | _ =>
    let v := versionStrOf data
    if v = SPEC_VERSION then data
    else
      let data' :=
        if verLt (parseVer SPEC_VERSION) (parseVer v) then data
        else if !verLt (parseVer "0.1.0") (parseVer v) then
          match getKey data "tasks" with
          | some (.dict td) => setKey data "tasks" (.list (td.map (fun kv => .dict [kv])))
          | _ => data
        else data
      setKey data' "version" (.str SPEC_VERSION)

theorem versionStrOf_setKey_version (d : Doc) :
    versionStrOf (setKey d "version" (.str SPEC_VERSION)) = SPEC_VERSION := by
  simp [versionStrOf, getKey_setKey_self]

theorem patchFile_idem (x : Doc) : patchFile (patchFile x) = patchFile x := by
  cases hx : x with
  | nil => rfl
  | cons p rest =>
    show patchFile (patchFile (p :: rest)) = patchFile (p :: rest)
    by_cases hv : versionStrOf (p :: rest) = SPEC_VERSION
    · have h1 : patchFile (p :: rest) = p :: rest := by
        simp [patchFile, hv]
      rw [h1, h1]
    · simp only [patchFile]
      simp only [hv, if_false]
      generalize hd :
        (if verLt (parseVer SPEC_VERSION) (parseVer (versionStrOf (p :: rest))) then p :: rest
         else if !verLt (parseVer "0.1.0") (parseVer (versionStrOf (p :: rest))) then
           match getKey (p :: rest) "tasks" with
           | some (.dict td) => setKey (p :: rest) "tasks" (.list (td.map (fun kv => .dict [kv])))
           | _ => p :: rest
         else p :: rest) = data'
      have hne : setKey data' "version" (.str SPEC_VERSION) ≠ [] := setKey_ne_nil _ _ _
      cases hsk : setKey data' "version" (.str SPEC_VERSION) with
      | nil => exact absurd hsk hne
      | cons q qrest =>
        show patchFile (q :: qrest) = q :: qrest
        have hvq : versionStrOf (q :: qrest) = SPEC_VERSION := by
          rw [← hsk]; exact versionStrOf_setKey_version data'
        simp only [patchFile, hvq, if_true]

/-- Helper fact about the strict version order: a version at most `0.1.0`
is not above `1.0.0`. -/
theorem verLt_100_of_le_010 (l : List Nat) (h : verLt [0, 1, 0] l = false) :
    verLt [1, 0, 0] l = false := by
  match l with
  | [] => rfl
  | a :: rest =>
    have ha : a = 0 := by
      by_contra hne
      have h0 : 0 < a := Nat.pos_of_ne_zero hne
      have ht : verLt [0, 1, 0] (a :: rest) = true := by
        simp [verLt, h0]
      rw [ht] at h
      exact absurd h (by simp)
    subst ha
    simp [verLt]

theorem patchFile_legacy_tasks (x : Doc) (td : Doc)
    (hv : verLt (parseVer "0.1.0") (parseVer (versionStrOf x)) = false)
    (ht : getKey x "tasks" = some (.dict td)) :
    getKey (patchFile x) "tasks" = some (.list (td.map (fun kv => .dict [kv]))) := by
  cases hx : x with
  | nil => rw [hx] at ht; simp [getKey] at ht
  | cons p rest =>
    rw [hx] at hv ht
    have hvs : versionStrOf (p :: rest) ≠ SPEC_VERSION := by
      intro he
      rw [he] at hv
      simp [SPEC_VERSION, parseVer, splitDots, digitsToNat, verLt] at hv
    have hgt : verLt (parseVer SPEC_VERSION) (parseVer (versionStrOf (p :: rest))) = false :=
      verLt_100_of_le_010 _ hv
    simp only [patchFile, hvs, if_false, hgt, hv, Bool.not_false, if_true, ht]
    simp only [Bool.false_eq_true, if_false]
    rw [getKey_setKey_ne _ _ _ _ (by decide), getKey_setKey_self]

/-! ## aggregate_device (`session_params.py`, lines 182-233) -/

/-- Errors that abort an aggregation call: the file lock was not acquired,
or `merge_params` raised the sync-conflict assertion. -/
inductive AggErr where
  | lockTimeout
  | mergeConflict

/-- The two files an aggregation call touches, each `none` when absent and
otherwise holding parsed YAML content. -/
structure FS where
  device : Option Doc
  canonical : Option Doc

/-- Embedding of `read_params`: missing file gives None, otherwise the
parsed content is patched to the current spec. -/
def readParams : Option Doc → Option Doc
  | none => none
  | some d => some (patchFile d)

/-- Embedding of `aggregate_device(file_device, file_acquisition_description,
unlink)`.  The advisory file lock is abstracted by `lockOk`: the configured
timeout policy either reclaims the lock (acquisition succeeds) or fails the
operation, and `lockOk = false` is the failing outcome.  Returns the
result (the aggregated document, `none` for an empty device file, or an
error) together with the file system after the call. -/
def aggregateDevice (lockOk : Bool) (unlink : Bool) (fs : FS) :
    Except AggErr (Option Doc) × FS :=
  match readParams fs.device with
  | none => (.ok none, fs)
  | some dd =>
    match dd with
    | [] => (.ok none, fs)
    | _ =>
      if !lockOk then (.error .lockTimeout, fs)
      else
        let acq := match fs.canonical with
          | some c => (readParams (some c)).getD []
          | none => []
        match mergeParams acq dd with
        | .error _ => (.error .mergeConflict, fs)
        | .ok merged =>
          let fs' : FS := { device := if unlink then none else fs.device,
                            canonical := some merged }
          (.ok (some merged), fs')

/-! ## get_collections (`session_params.py`, lines 366-407) -/

/-- Record of one `collection` hit in the traversal's accumulator: first hit
stores the bare value, later hits turn it into a `list(set(...))` of all
values seen (the source keeps Python-set order; we keep first-occurrence
order, on which no claim depends). -/
def addColl (m : Doc) (k : String) (c : Val) : Doc :=
  match getKey m k with
  | none => setKey m k c
  | some old =>
    setKey m k (.list (dedupPy ((match old with | .list xs => xs | v => [v]) ++ [c])))

mutual
/-- Embedding of the inner `iter_dict` of `get_collections`, threading the
mutable `collection_map` accumulator. -/
def iterDict (m : Doc) : Doc → Doc
  | [] => m
  | (k, v) :: rest => iterDict (iterVal m k v) rest
def iterVal (m : Doc) (k : String) : Val → Doc
  | .list xs => iterList m xs
  | .dict d =>
    if hasKeyB d "collection" then addColl m k ((getKey d "collection").getD .vnone)
    else iterDict m d
  | _ => m
def iterList (m : Doc) : List Val → Doc
  | [] => m
  | x :: rest => iterList (match x with | .dict d => iterDict m d | _ => m) rest
end

/-- Embedding of `get_collections(sess_params, flat=False)`. -/
def getCollections (sess : Doc) : Doc := iterDict [] sess

mutual
/-- Specification-side list of the `(enclosingKey, collection)` pairs the
traversal records, in depth-first order: the maps that are values of a key,
contain a `collection` field, and are not nested inside another
collection-bearing map; list elements contribute through their own inner
keys. -/
def pairsDict : Doc → List (String × Val)
  | [] => []
  | (k, v) :: rest => pairsVal k v ++ pairsDict rest
def pairsVal (k : String) : Val → List (String × Val)
  | .list xs => pairsList xs
  | .dict d =>
    if hasKeyB d "collection" then [(k, (getKey d "collection").getD .vnone)]
    else pairsDict d
  | _ => []
def pairsList : List Val → List (String × Val)
  | [] => []
  | x :: rest => (match x with | .dict d => pairsDict d | _ => []) ++ pairsList rest
end

/-- Accumulation of a pair list into a collection map via `addColl`. -/
def foldColl (m : Doc) (ps : List (String × Val)) : Doc :=
  ps.foldl (fun acc kc => addColl acc kc.1 kc.2) m

theorem foldColl_append (m : Doc) (a b : List (String × Val)) :
    foldColl m (a ++ b) = foldColl (foldColl m a) b := by
  simp [foldColl, List.foldl_append]

/-- Simultaneous induction over the nested value type. -/
structure ValIndHyp (P : Val → Prop) (Q : List Val → Prop) (R : Doc → Prop) : Prop where
  hnone : P .vnone
  hstr : ∀ s, P (.str s)
  hig : ∀ n, P (.int n)
  hlist : ∀ xs, Q xs → P (.list xs)
  hdict : ∀ d, R d → P (.dict d)
  qnil : Q []
  qcons : ∀ x xs, P x → Q xs → Q (x :: xs)
  rnil : R []
  rcons : ∀ k v rest, P v → R rest → R ((k, v) :: rest)

mutual
def valInd (P : Val → Prop) (Q : List Val → Prop) (R : Doc → Prop)
    (H : ValIndHyp P Q R) : ∀ v, P v
  | .vnone => H.hnone
  | .str s => H.hstr s
  | .int n => H.hig n
  | .list xs => H.hlist xs (listInd P Q R H xs)
  | .dict d => H.hdict d (docInd P Q R H d)
def listInd (P : Val → Prop) (Q : List Val → Prop) (R : Doc → Prop)
    (H : ValIndHyp P Q R) : ∀ xs, Q xs
  | [] => H.qnil
  | x :: xs => H.qcons x xs (valInd P Q R H x) (listInd P Q R H xs)
def docInd (P : Val → Prop) (Q : List Val → Prop) (R : Doc → Prop)
    (H : ValIndHyp P Q R) : ∀ d, R d
  | [] => H.rnil
  | (k, v) :: rest => H.rcons k v rest (valInd P Q R H v) (docInd P Q R H rest)
end

/-- The traversal accumulates exactly the recorded pairs, in order. -/
theorem iterDict_eq_foldColl : ∀ d m, iterDict m d = foldColl m (pairsDict d) := by
  have main := docInd
    (fun v => (∀ m k, iterVal m k v = foldColl m (pairsVal k v)) ∧
      (∀ d, v = .dict d → ∀ m, iterDict m d = foldColl m (pairsDict d)))
    (fun xs => ∀ m, iterList m xs = foldColl m (pairsList xs))
    (fun d => ∀ m, iterDict m d = foldColl m (pairsDict d))
  refine fun d m => main ?_ d m
  constructor
  case hnone => exact ⟨fun m k => rfl, fun d h => by cases h⟩
  case hstr => exact fun s => ⟨fun m k => rfl, fun d h => by cases h⟩
  case hig => exact fun n => ⟨fun m k => rfl, fun d h => by cases h⟩
  case hlist =>
    intro xs hQ
    refine ⟨fun m k => ?_, fun d h => by cases h⟩
    show iterList m xs = foldColl m (pairsList xs)
    exact hQ m
  case hdict =>
    intro d hR
    constructor
    · intro m k
      show iterVal m k (.dict d) = foldColl m (pairsVal k (.dict d))
      by_cases hc : hasKeyB d "collection" = true
      · simp only [iterVal, pairsVal, hc, if_true]
        rfl
      · simp only [iterVal, pairsVal, hc]
        simp only [Bool.false_eq_true, if_false]
        exact hR m
    · intro d' h m
      cases h
      exact hR m
  case qnil => exact fun m => rfl
  case qcons =>
    intro x xs hP hQ m
    cases x with
    | dict d =>
      show iterList (iterDict m d) xs = foldColl m (pairsDict d ++ pairsList xs)
      rw [foldColl_append, hQ, hP.2 d rfl m]
    | vnone =>
      show iterList m xs = foldColl m ([] ++ pairsList xs)
      rw [List.nil_append]; exact hQ m
    | str s =>
      show iterList m xs = foldColl m ([] ++ pairsList xs)
      rw [List.nil_append]; exact hQ m
    | int n =>
      show iterList m xs = foldColl m ([] ++ pairsList xs)
      rw [List.nil_append]; exact hQ m
    | list ys =>
      show iterList m xs = foldColl m ([] ++ pairsList xs)
      rw [List.nil_append]; exact hQ m
  case rnil => exact fun m => rfl
  case rcons =>
    intro k v rest hP hR m
    show iterDict (iterVal m k v) rest = foldColl m (pairsVal k v ++ pairsDict rest)
    rw [foldColl_append, hR, hP.1]

/-! ## get_task_collection / get_task_protocol_number
(`session_params.py`, lines 306-363), `task_protocol=None` branches -/

/-- Result type of the two Python accessors when no protocol is given: the
value itself, a set of values, a list of values, or None. -/
inductive PyRet where
  | pnone
  | pval (v : Val)
  | pset (vs : List Val)
  | plist (vs : List Val)

/-- Python `next(iter(x.values()), {})` on a task entry; a non-dict task
entry is outside the schema (CPython would raise) and is modelled as `{}`. -/
def taskFirstVal : Val → Val
  | .dict ((_, v) :: _) => v
  | _ => .dict []

/-- Python `next(iter(x.values()), {}).get('collection')`; a non-dict task
config is outside the schema (CPython would raise) and yields None. -/
def taskCollRaw (x : Val) : Val :=
  match taskFirstVal x with
  | .dict c => (getKey c "collection").getD .vnone
  | _ => .vnone

/-- The `cset` local of `get_task_collection`:
`set(filter(None, (... .get('collection') for x in protocols)))`. -/
def distinctCols (d : Doc) : List Val :=
  dedupPy (((asListV (getKey d "tasks")).map taskCollRaw).filter Val.truthy)

/-- Embedding of `get_task_collection(sess_params, task_protocol=None)`:
`(next(iter(cset)) if len(cset) == 1 else cset) or None`. -/
def getTaskCollectionAll (d : Doc) : PyRet :=
  match distinctCols d with
  | [] => .pnone
  | [c] => if c.truthy then .pval c else .pnone
  | cs => .pset cs

/-- Python `next(iter(x.values()), {}).get('protocol_number')`. -/
def taskPNRaw (x : Val) : Val :=
  match taskFirstVal x with
  | .dict c => (getKey c "protocol_number").getD .vnone
  | _ => .vnone

/-- Python `int(s)` on the decimal strings of the schema (other strings
raise in CPython and are not modelled). -/
def strToIntPy (s : String) : Int :=
  match s.data with
  | '-' :: rest => -(digitsToNat rest 0 : Int)
  | cs => (digitsToNat cs 0 : Int)

/-- The `int(n) if isinstance(n, str) else n` conversion. -/
def toIntPy : Val → Val
  | .str s => .int (strToIntPy s)
  | v => v

/-- The `numbers` local of `get_task_protocol_number`: truthy
`protocol_number` entries, then string-to-int conversion. -/
def pnNumbers (d : Doc) : List Val :=
  (((asListV (getKey d "tasks")).map taskPNRaw).filter Val.truthy).map toIntPy

/-- Embedding of `get_task_protocol_number(sess_params, task_protocol=None)`:
`(next(iter(numbers)) if len(numbers) == 1 else numbers) or None`. -/
def getTaskProtocolNumberAll (d : Doc) : PyRet :=
  match pnNumbers d with
  | [] => .pnone
  | [n] => if n.truthy then .pval n else .pnone
  | ns => .plist ns

/-! ## ServerDataHandler.uploadData (`data_handlers.py`, lines 120-159) -/

/-- Per-handler-instance state: the `processed` map from output path to its
registration record. -/
structure SrvState where
  processed : Doc

/-- The `to_upload` local of `uploadData`:
`list(filter(None if clobber else lambda x: x not in self.processed, outputs))`.
With `clobber` the filter drops falsy (empty) paths; otherwise it drops the
paths already in the processed map. -/
def toUploadList (clobber : Bool) (processed : Doc) (outputs : List String) : List String :=
  if clobber then outputs.filter (fun x => !x.isEmpty)
  else outputs.filter (fun x => !hasKeyB processed x)

/-- Embedding of `ServerDataHandler.uploadData(outputs, version, clobber)`.
The external `register_dataset` capability is passed in as `register`; the
call returns the records for `outputs` found in the updated processed map,
with the map update skipped for dry runs and for falsy records. -/
def uploadDataSrv (register : List String → List Val) (clobber dry : Bool)
    (outputs : List String) (st : SrvState) : List Val × SrvState :=
  let toUpload := toUploadList clobber st.processed outputs
  let records := register toUpload
  if dry then (records, st)
  else
    let processed' := (toUpload.zip records).foldl
      (fun m kv => if kv.2.truthy then setKey m kv.1 kv.2 else m) st.processed
    (outputs.filterMap (fun x => getKey processed' x), ⟨processed'⟩)

/-! ## SDSC / Popeye cleanUp (`data_handlers.py`, lines 455-475) -/

/-- File-system paths as component lists (`pathlib.Path.parts`). -/
abbrev PathParts := List String

/-- File system visible to a quarantine handler's cleanup. -/
structure QFS where
  files : List PathParts

/-- Effect of `shutil.rmtree(p)`: every path under `p` is removed. -/
def rmtree (p : PathParts) (fs : QFS) : QFS :=
  ⟨fs.files.filter (fun q => !p.isPrefixOf q)⟩

/-- Embedding of `SDSCDataHandler.cleanUp`: assert that the first four
components of the module-level `SDSC_PATCH_PATH` equal those of the task's
session path, then remove the session-path subtree; a failed assert raises. -/
def sdscCleanUp (modulePatchPath : PathParts) (sessionPath : PathParts)
    (fs : QFS) : Except Unit QFS :=
  if modulePatchPath.take 4 = sessionPath.take 4 then .ok (rmtree sessionPath fs)
  else .error ()

/-- Default quarantine root configured in `PopeyeDataHandler.__init__`
(`/mnt/sdceph/users/ibl/data/quarantine/tasks/`). -/
def popeyeQuarantineRoot : PathParts :=
  ["/", "mnt", "sdceph", "users", "ibl", "data", "quarantine", "tasks"]

/-- Embedding of `PopeyeDataHandler.cleanUp`: the override is `pass` — no
check, no deletion, no error, whatever the session path. -/
def popeyeCleanUp (_sessionPath : PathParts) (fs : QFS) : Except Unit QFS :=
  .ok fs

/-! ## Specification-side recursive merge (claim C1's description) -/

mutual
/-- The merge rule claim C1 describes (the specification side of the
refinement): for each incoming sub-key, scalars override, nested maps are
merged recursively, and nested lists are unioned by the per-key list rules. -/
def specRecMergeDoc (base : Doc) : Doc → Doc
  | [] => base
  | (k, v) :: rest => specRecMergeDoc (specRecMergeEntry base k v) rest
def specRecMergeEntry (base : Doc) (k : String) : Val → Doc
  | .list bs =>
    setKey base k (.list (asListV (getKey base k) ++
      (if k = "tasks" then bs else pySetDiff bs (asListV (getKey base k)))))
  | .dict d => setKey base k (.dict (specRecMergeDoc (asDictV (getKey base k)) d))
  | v => setKey base k v
end

/-! ## Claim C1 -/

def c1Base : Doc :=
  [("devices", .dict [("cameras", .dict
    [("left", .dict [("collection", .str "raw_video_data")])])])]

def c1Inc : Doc :=
  [("devices", .dict [("cameras", .dict
    [("right", .dict [("collection", .str "raw_video_data")])])])]

def c1IncDevices : Doc :=
  [("cameras", .dict [("right", .dict [("collection", .str "raw_video_data")])])]

def c1Merged : Doc :=
  [("devices", .dict [("cameras", .dict
    [("right", .dict [("collection", .str "raw_video_data")])])])]

/-- Whether the merged document still knows the base's `left` camera. -/
def c1Obs (d : Doc) : Bool :=
  hasKeyB (asDictV (getKey (asDictV (getKey d "devices")) "cameras")) "left"

/-- Claim C1, counterexample: with the base's `devices.cameras` holding a
`left` entry and the incoming's a `right` entry, the shallow recursive merge
the claim describes keeps both cameras, but `merge_params` performs a
one-level `{**old, **new}` update that replaces the whole `cameras` sub-map,
dropping `left`; so the merged document is not the claim's recursive merge. -/
theorem C1_shallow_recursive_merge_counterexample :
    mergeParams c1Base c1Inc ≠ .ok (specRecMergeDoc c1Base c1Inc) := by
  intro h
  have h2 : c1Obs ((mergeParams c1Base c1Inc).toOption.getD []) =
      c1Obs (specRecMergeDoc c1Base c1Inc) := by rw [h]; rfl
  exact absurd h2 (by decide)

/-- Claim C1, amended: for every key whose value is map-valued in the
incoming document, a successful merge stores at that key the one-level
`{**old, **new}` dict update — each incoming sub-key's value replaces the
base's value for that sub-key wholesale, with no recursion into nested maps
and no union of nested lists. -/
theorem C1_map_key_one_level_update (a b m : Doc) (k : String) (d : Doc)
    (hnd : (b.map Prod.fst).Nodup)
    (hk : getKey b k = some (.dict d))
    (hm : mergeParams a b = .ok m) :
    getKey m k = some (.dict (pyUpdate (asDictV (getKey a k)) d)) := by
  rw [mergeParams_getKey b a m k hnd hm, hk]
  rfl

/-- Claim C1, witness for the amended theorem at a concrete input. -/
theorem C1_map_key_one_level_update_witness :
    getKey c1Merged "devices" =
      some (.dict (pyUpdate (asDictV (getKey c1Base "devices")) c1IncDevices)) :=
  C1_map_key_one_level_update c1Base c1Inc c1Merged "devices" c1IncDevices
    (by decide) rfl rfl

/-! ## Claim C3 -/

/-- Claim C3: `merge_params(a, b)` raises the sync-conflict assertion
exactly when both documents define a `sync` entry and the two values differ
under Python `==`; it returns normally when either side's `sync` is absent
or both are identical. -/
theorem C3_sync_conflict_exactly_when_differing (a b : Doc)
    (hnd : (b.map Prod.fst).Nodup) :
    exOk (mergeParams a b) = !syncConflictB a b :=
  mergeParams_isOk b a hnd

/-- Claim C3, witness at concrete documents both defining `sync`. -/
theorem C3_sync_conflict_exactly_when_differing_witness :
    exOk (mergeParams [("sync", Val.dict [("nidq", Val.dict [("collection", Val.str "raw_ephys_data")])])]
        [("sync", Val.dict [("bpod", Val.dict [("collection", Val.str "raw_behavior_data")])]),
         ("version", Val.str "1.0.0")]) =
      !syncConflictB [("sync", Val.dict [("nidq", Val.dict [("collection", Val.str "raw_ephys_data")])])]
        [("sync", Val.dict [("bpod", Val.dict [("collection", Val.str "raw_behavior_data")])]),
         ("version", Val.str "1.0.0")] :=
  C3_sync_conflict_exactly_when_differing _ _ (by decide)

/-! ## Claim C4 -/

/-- Claim C4: when both documents carry list-valued `tasks` fields and the
merge succeeds, the merged `tasks` field is the base's list followed by the
incoming's list, order preserved on both sides and nothing deduplicated. -/
theorem C4_tasks_concatenation (a b m : Doc) (ta tb : List Val)
    (hnd : (b.map Prod.fst).Nodup)
    (ha : getKey a "tasks" = some (.list ta))
    (hb : getKey b "tasks" = some (.list tb))
    (hm : mergeParams a b = .ok m) :
    getKey m "tasks" = some (.list (ta ++ tb)) := by
  rw [mergeParams_getKey b a m "tasks" hnd hm, hb, ha]
  rfl

/-- Claim C4, witness: two equal task entries are kept twice, in order. -/
theorem C4_tasks_concatenation_witness :
    getKey [("tasks", Val.list
        [Val.dict [("p1", Val.dict [("collection", Val.str "raw_task_data_00")])],
         Val.dict [("p1", Val.dict [("collection", Val.str "raw_task_data_00")])]])] "tasks" =
      some (.list ([Val.dict [("p1", Val.dict [("collection", Val.str "raw_task_data_00")])]] ++
        [Val.dict [("p1", Val.dict [("collection", Val.str "raw_task_data_00")])]])) :=
  C4_tasks_concatenation
    [("tasks", Val.list [Val.dict [("p1", Val.dict [("collection", Val.str "raw_task_data_00")])]])]
    [("tasks", Val.list [Val.dict [("p1", Val.dict [("collection", Val.str "raw_task_data_00")])]])]
    _ _ _ (by decide) rfl rfl rfl

/-! ## Claim C5 -/

/-- Claim C5: `_patch_file` is idempotent, and one application turns a
legacy document's dict-shaped `tasks` field (version at most `0.1.0`) into
the list-of-single-key-dicts encoding. -/
theorem C5_patch_idempotent_and_legacy_tasks (x : Doc) (td : Doc) :
    patchFile (patchFile x) = patchFile x ∧
    (verLt (parseVer "0.1.0") (parseVer (versionStrOf x)) = false →
      getKey x "tasks" = some (.dict td) →
      getKey (patchFile x) "tasks" = some (.list (td.map (fun kv => .dict [kv])))) :=
  ⟨patchFile_idem x, fun hv ht => patchFile_legacy_tasks x td hv ht⟩

/-- Claim C5, witness: a version-0.1.0 document with a dict-shaped `tasks`
is converted by one patch. -/
theorem C5_patch_idempotent_and_legacy_tasks_witness :
    getKey (patchFile [("version", Val.str "0.1.0"),
        ("tasks", Val.dict [("p1", Val.dict [("collection", Val.str "raw_behavior_data")])])]) "tasks" =
      some (.list ([("p1", Val.dict [("collection", Val.str "raw_behavior_data")])].map
        (fun kv => Val.dict [kv]))) :=
  (C5_patch_idempotent_and_legacy_tasks
    [("version", Val.str "0.1.0"),
     ("tasks", Val.dict [("p1", Val.dict [("collection", Val.str "raw_behavior_data")])])]
    [("p1", Val.dict [("collection", Val.str "raw_behavior_data")])]).2 (by decide) rfl

/-! ## Claim C2 -/

/-- Claim C2, counterexample: `PopeyeDataHandler.cleanUp` is `pass`.  For a
session path outside the configured quarantine root it neither raises nor
checks anything, returning the file system unchanged, where the claim
demands a raise that never silently no-ops. -/
theorem C2_popeye_noop_counterexample :
    popeyeQuarantineRoot.isPrefixOf ["/", "etc"] = false ∧
    popeyeCleanUp ["/", "etc"] ⟨[["/", "etc", "passwd"]]⟩ =
      .ok ⟨[["/", "etc", "passwd"]]⟩ :=
  ⟨rfl, rfl⟩

/-- Claim C2, amended: `SDSCDataHandler.cleanUp` raises (a failed assert)
rather than deleting whenever the first four components of the task session
path differ from those of the module-level patch path, and otherwise deletes
only paths under the session path; `PopeyeDataHandler.cleanUp` overrides
this with a no-op that neither checks nor deletes. -/
theorem C2_quarantine_cleanup_check (root sp : PathParts) (fs : QFS) :
    (root.take 4 ≠ sp.take 4 → sdscCleanUp root sp fs = .error ()) ∧
    (∀ fs', sdscCleanUp root sp fs = .ok fs' →
      ∀ q ∈ fs.files, sp.isPrefixOf q = false → q ∈ fs'.files) ∧
    popeyeCleanUp sp fs = .ok fs := by
  refine ⟨?_, ?_, rfl⟩
  · intro h
    simp [sdscCleanUp, h]
  · intro fs' h q hq hnp
    unfold sdscCleanUp at h
    by_cases hc : root.take 4 = sp.take 4
    · rw [if_pos hc] at h
      injection h with h'
      subst h'
      simp [rmtree, List.mem_filter, hq, hnp]
    · rw [if_neg hc] at h
      exact Except.noConfusion h

/-- Claim C2, witness for the amended theorem: a session path whose head
components differ from the patch path's makes the SDSC cleanup raise. -/
theorem C2_quarantine_cleanup_check_witness :
    sdscCleanUp ["/", "mnt", "ibl", "patcher"] ["/", "data", "subject", "2020-01-01"]
      ⟨[["/", "data", "subject", "2020-01-01", "alf", "spikes.times.npy"]]⟩ = .error () :=
  (C2_quarantine_cleanup_check ["/", "mnt", "ibl", "patcher"]
    ["/", "data", "subject", "2020-01-01"]
    ⟨[["/", "data", "subject", "2020-01-01", "alf", "spikes.times.npy"]]⟩).1 (by decide)

/-! ## Claim C6 -/

/-- Case analysis of an aggregation call: either the canonical file is left
untouched and no merged document is returned, or the call returns the merged
document and the canonical file holds exactly it. -/
theorem aggregateDevice_cases (lockOk unlink : Bool) (fs : FS) :
    ((aggregateDevice lockOk unlink fs).2.canonical = fs.canonical ∧
      ∀ m, (aggregateDevice lockOk unlink fs).1 ≠ .ok (some m)) ∨
    (∃ m, (aggregateDevice lockOk unlink fs).1 = .ok (some m) ∧
      (aggregateDevice lockOk unlink fs).2.canonical = some m) := by
  unfold aggregateDevice
  cases readParams fs.device with
  | none => exact Or.inl ⟨rfl, fun m h => Option.noConfusion (Except.ok.inj h)⟩
  | some dd =>
    cases dd with
    | nil => exact Or.inl ⟨rfl, fun m h => Option.noConfusion (Except.ok.inj h)⟩
    | cons p rest =>
      cases lockOk with
      | false => exact Or.inl ⟨rfl, fun m h => Except.noConfusion h⟩
      | true =>
        dsimp only
        cases hm : mergeParams (match fs.canonical with
            | some c => (readParams (some c)).getD []
            | none => []) (p :: rest) with
        | error e => exact Or.inl ⟨rfl, fun m h => Except.noConfusion h⟩
        | ok merged => exact Or.inr ⟨merged, rfl, rfl⟩

/-- Claim C6: an aggregation call in which the lock acquisition or the merge
raises leaves the canonical file unchanged; when a document is returned the
canonical file holds exactly the complete merged document; an empty device
file also leaves the canonical file unchanged.  The persisted canonical
document is never a partial state. -/
theorem C6_aggregate_canonical_all_or_nothing (lockOk unlink : Bool) (fs : FS) :
    (exOk (aggregateDevice lockOk unlink fs).1 = false →
      (aggregateDevice lockOk unlink fs).2.canonical = fs.canonical) ∧
    ((aggregateDevice lockOk unlink fs).1 = .ok none →
      (aggregateDevice lockOk unlink fs).2.canonical = fs.canonical) ∧
    (∀ m, (aggregateDevice lockOk unlink fs).1 = .ok (some m) →
      (aggregateDevice lockOk unlink fs).2.canonical = some m) := by
  rcases aggregateDevice_cases lockOk unlink fs with ⟨hc, hno⟩ | ⟨m, hok, hc⟩
  · exact ⟨fun _ => hc, fun _ => hc, fun m h => absurd h (hno m)⟩
  · refine ⟨fun h => ?_, fun h => ?_, fun m' h => ?_⟩
    · rw [hok] at h
      exact absurd h (by simp [exOk])
    · rw [hok] at h
      exact Option.noConfusion (Except.ok.inj h)
    · rw [hok] at h
      rw [hc, Except.ok.inj h]

/-- Claim C6, witness: a lock-acquisition failure leaves the canonical
content untouched. -/
theorem C6_aggregate_canonical_all_or_nothing_witness :
    (aggregateDevice false true
      ⟨some [("version", Val.str "1.0.0"), ("procedures", Val.list [Val.str "a"])],
       some [("version", Val.str "1.0.0")]⟩).2.canonical =
    (⟨some [("version", Val.str "1.0.0"), ("procedures", Val.list [Val.str "a"])],
      some [("version", Val.str "1.0.0")]⟩ : FS).canonical :=
  (C6_aggregate_canonical_all_or_nothing false true
    ⟨some [("version", Val.str "1.0.0"), ("procedures", Val.list [Val.str "a"])],
     some [("version", Val.str "1.0.0")]⟩).1 rfl

/-! ## Claim C7 -/

def c7Doc : Doc :=
  [("dev", .dict [("collection", .str "a"), ("sub", .dict [("collection", .str "b")])])]

/-- Claim C7, counterexample: the map at key `sub` contains a `collection`
field, but the traversal records no entry for `sub` — a map holding a
`collection` field is recorded and not recursed into, so collection-bearing
maps nested inside it are missed. -/
theorem C7_nested_collection_map_counterexample :
    getCollections c7Doc = [("dev", Val.str "a")] ∧
    getKey (getCollections c7Doc) "sub" = none :=
  ⟨rfl, rfl⟩

/-- Claim C7, amended: the non-flat traversal records, in depth-first order,
exactly the `(enclosingKey, collection)` pairs of the maps that are values
of a key, contain a `collection` field and are not nested inside another
collection-bearing map (list elements contribute through their own inner
keys); repeated enclosing keys accumulate through `addColl` into a
deduplicated collection list instead of overwriting the earlier value. -/
theorem C7_collections_recorded_pairs (d : Doc) :
    getCollections d = foldColl [] (pairsDict d) :=
  iterDict_eq_foldColl d []

/-! ## Claim C8 -/

theorem mem_of_mem_dedupPy (l : List Val) : ∀ y ∈ dedupPy l, y ∈ l := by
  have H : ∀ (l acc : List Val) (y : Val),
      y ∈ l.foldl (fun acc x => if pyMem x acc then acc else acc ++ [x]) acc →
      y ∈ acc ∨ y ∈ l := by
    intro l
    induction l with
    | nil => intro acc y h; exact Or.inl h
    | cons x xs ih =>
      intro acc y h
      rcases ih _ y h with h1 | h1
      · by_cases hm : pyMem x acc = true
        · simp [hm] at h1
          exact Or.inl h1
        · simp [hm] at h1
          rcases h1 with h1 | h1
          · exact Or.inl h1
          · subst h1
            exact Or.inr (by simp)
      · exact Or.inr (by simp [h1])
  intro y hy
  rcases H l [] y hy with h | h
  · exact absurd h (by simp)
  · exact h

def c8Doc : Doc :=
  [("tasks", .list
    [.dict [("p1", .dict [("collection", .str "raw_task_data_00")])],
     .dict [("p2", .dict [("collection", .str "raw_task_data_00")])]])]

/-- Claim C8, counterexample: a document with two tasks sharing one
collection.  The claim says that with more than one task the call returns
the set of all task collections, but the code branches on the number of
distinct collections and returns the bare collection value. -/
theorem C8_two_tasks_one_collection_counterexample :
    (asListV (getKey c8Doc "tasks")).length = 2 ∧
    getTaskCollectionAll c8Doc = .pval (.str "raw_task_data_00") :=
  ⟨rfl, rfl⟩

/-- Claim C8, amended: the no-protocol call keys on the number of distinct
truthy collections, not the number of tasks: two or more distinct
collections give the set of them, exactly one distinct collection gives
that collection directly however many tasks exist, and none gives None. -/
theorem C8_collection_by_distinct_count (d : Doc) :
    (2 ≤ (distinctCols d).length → getTaskCollectionAll d = .pset (distinctCols d)) ∧
    (∀ c, distinctCols d = [c] → getTaskCollectionAll d = .pval c) ∧
    (distinctCols d = [] → getTaskCollectionAll d = .pnone) := by
  refine ⟨?_, ?_, ?_⟩
  · intro h2
    cases hdc : distinctCols d with
    | nil => rw [hdc] at h2; simp at h2
    | cons c cs =>
      cases cs with
      | nil => rw [hdc] at h2; simp at h2
      | cons c2 cs2 =>
        unfold getTaskCollectionAll
        rw [hdc]
  · intro c hc
    have hmem : c ∈ ((asListV (getKey d "tasks")).map taskCollRaw).filter Val.truthy := by
      apply mem_of_mem_dedupPy
      show c ∈ distinctCols d
      rw [hc]
      simp
    have htr : Val.truthy c = true := List.of_mem_filter hmem
    unfold getTaskCollectionAll
    rw [hc]
    simp [htr]
  · intro hc
    unfold getTaskCollectionAll
    rw [hc]

/-- Claim C8, witness for the amended theorem: one task, one collection. -/
theorem C8_collection_by_distinct_count_witness :
    getTaskCollectionAll
      [("tasks", Val.list [Val.dict [("p1", Val.dict [("collection", Val.str "raw_task_data_00")])]])] =
      .pval (.str "raw_task_data_00") :=
  (C8_collection_by_distinct_count
    [("tasks", Val.list [Val.dict [("p1", Val.dict [("collection", Val.str "raw_task_data_00")])]])]).2.1
    (.str "raw_task_data_00") rfl

/-! ## Claim C9 -/

theorem hasKeyB_setKey_self (m : Doc) (k : String) (v : Val) :
    hasKeyB (setKey m k v) k = true := by
  simp [hasKeyB, getKey_setKey_self]

theorem hasKeyB_setKey_of (m : Doc) (k x : String) (v : Val)
    (h : hasKeyB m x = true) : hasKeyB (setKey m k v) x = true := by
  by_cases he : k = x
  · subst he; exact hasKeyB_setKey_self m k v
  · rwa [hasKeyB, getKey_setKey_ne m x k v he]

/-- The processed-map update never loses keys. -/
theorem hasKeyB_foldl_update (ps : List (String × Val)) : ∀ (m : Doc) (x : String),
    hasKeyB m x = true →
    hasKeyB (ps.foldl (fun m kv => if kv.2.truthy then setKey m kv.1 kv.2 else m) m) x = true := by
  induction ps with
  | nil => intro m x h; exact h
  | cons kv rest ih =>
    intro m x h
    by_cases ht : kv.2.truthy = true <;> simp only [List.foldl_cons, ht, if_true,
      Bool.false_eq_true, if_false] <;> apply ih
    · exact hasKeyB_setKey_of m kv.1 x kv.2 h
    · exact h

/-- Every uploaded path with a truthy record ends up in the processed map. -/
theorem hasKeyB_foldl_update_mem : ∀ (toUp : List String) (recs : List Val) (m : Doc)
    (x : String), recs.length = toUp.length → (∀ r ∈ recs, r.truthy = true) →
    x ∈ toUp →
    hasKeyB ((toUp.zip recs).foldl
      (fun m kv => if kv.2.truthy then setKey m kv.1 kv.2 else m) m) x = true := by
  intro toUp
  induction toUp with
  | nil => intro recs m x _ _ hx; exact absurd hx (by simp)
  | cons t ts ih =>
    intro recs m x hlen htr hx
    cases recs with
    | nil => simp at hlen
    | cons r rs =>
      have hrt : r.truthy = true := htr r (by simp)
      simp only [List.zip_cons_cons, List.foldl_cons, hrt, if_true]
      rcases List.mem_cons.mp hx with he | hmem
      · subst he
        exact hasKeyB_foldl_update _ _ _ (hasKeyB_setKey_self m x r)
      · exact ih rs _ x (by simpa using hlen) (fun r hr => htr r (by simp [hr])) hmem

/-- The processed map after a non-dry `uploadData` call. -/
theorem uploadDataSrv_processed (register : List String → List Val)
    (clobber : Bool) (outputs : List String) (st : SrvState) :
    (uploadDataSrv register clobber false outputs st).2.processed =
      ((toUploadList clobber st.processed outputs).zip
          (register (toUploadList clobber st.processed outputs))).foldl
        (fun m kv => if kv.2.truthy then setKey m kv.1 kv.2 else m) st.processed := rfl

/-- A registration capability used by the concrete claim-C9 instances:
every path gets the same (truthy) receipt. -/
def c9Register : List String → List Val := fun l => l.map (fun _ => .int 1)

/-- Claim C9, counterexample: with an outputs list containing a duplicated
path, the first clobber=false call already passes the path to registration
twice (the processed map is consulted only as of the start of the call), so
two calls with the same outputs register the artifact more than once. -/
theorem C9_duplicate_outputs_counterexample :
    toUploadList false (SrvState.mk []).processed ["spikes.times.npy", "spikes.times.npy"] ++
      toUploadList false
        (uploadDataSrv c9Register false false
          ["spikes.times.npy", "spikes.times.npy"] ⟨[]⟩).2.processed
        ["spikes.times.npy", "spikes.times.npy"] =
    ["spikes.times.npy", "spikes.times.npy"] := rfl

/-- Claim C9, amended: for a list of distinct outputs and a registration
capability returning one truthy record per path, a second clobber=false call
passes nothing to registration — so across the two calls each artifact is
registered at most once (the first call's upload list has no duplicates) —
while a clobber=true call re-registers every truthy output. -/
theorem C9_upload_skips_processed (register : List String → List Val)
    (outputs : List String) (st : SrvState)
    (hnd : outputs.Nodup)
    (hreg : ∀ l, (register l).length = l.length ∧ ∀ r ∈ register l, r.truthy = true) :
    toUploadList false (uploadDataSrv register false false outputs st).2.processed outputs
        = [] ∧
    (toUploadList false st.processed outputs).Nodup ∧
    toUploadList true (uploadDataSrv register false false outputs st).2.processed outputs
        = outputs.filter (fun x => !x.isEmpty) := by
  refine ⟨?_, hnd.filter _, rfl⟩
  rw [uploadDataSrv_processed]
  have hall : ∀ x ∈ outputs,
      hasKeyB (((toUploadList false st.processed outputs).zip
          (register (toUploadList false st.processed outputs))).foldl
        (fun m kv => if kv.2.truthy then setKey m kv.1 kv.2 else m) st.processed) x = true := by
    intro x hx
    by_cases hin : hasKeyB st.processed x = true
    · exact hasKeyB_foldl_update _ _ _ hin
    · have hup : x ∈ toUploadList false st.processed outputs := by
        simp only [toUploadList, Bool.false_eq_true, if_false, List.mem_filter]
        exact ⟨hx, by simp [hin]⟩
      exact hasKeyB_foldl_update_mem _ _ _ x
        ((hreg (toUploadList false st.processed outputs)).1)
        ((hreg (toUploadList false st.processed outputs)).2) hup
  simp only [toUploadList, Bool.false_eq_true, if_false] at hall ⊢
  rw [List.filter_eq_nil_iff]
  intro x hx
  simp [hall x hx]

/-- Claim C9, witness for the amended theorem at two distinct outputs. -/
theorem C9_upload_skips_processed_witness :
    toUploadList false
        (uploadDataSrv c9Register false false ["a.npy", "b.npy"] ⟨[]⟩).2.processed
        ["a.npy", "b.npy"] = [] ∧
    (toUploadList false (SrvState.mk []).processed ["a.npy", "b.npy"]).Nodup ∧
    toUploadList true
        (uploadDataSrv c9Register false false ["a.npy", "b.npy"] ⟨[]⟩).2.processed
        ["a.npy", "b.npy"] = ["a.npy", "b.npy"].filter (fun x => !x.isEmpty) :=
  C9_upload_skips_processed c9Register ["a.npy", "b.npy"] ⟨[]⟩ (by decide)
    (fun l => ⟨by simp [c9Register], by
      intro r hr
      simp only [c9Register, List.mem_map] at hr
      obtain ⟨a, _, ha⟩ := hr
      rw [← ha]
      rfl⟩)

/-! ## Claim C10 -/

theorem filter_truthy_map_comm (f : Val → Val) (l : List Val) :
    ((l.filter (fun t => (f t).truthy)).map f).filter Val.truthy =
      (l.map f).filter Val.truthy := by
  induction l with
  | nil => rfl
  | cons x xs ih =>
    by_cases h : (f x).truthy = true <;>
      simp [List.filter_cons, h, ih]

/-- Claim C10: with no protocol argument, tasks whose `protocol_number` is
falsy (missing, None, or the integer 0) are omitted before collection —
dropping them from the document leaves the result unchanged — and in
particular a document whose only task has `protocol_number` 0 yields None
rather than 0. -/
theorem C10_protocol_number_omits_falsy (d : Doc) (t : Val) :
    getTaskProtocolNumberAll d =
      getTaskProtocolNumberAll (setKey d "tasks"
        (.list ((asListV (getKey d "tasks")).filter (fun x => (taskPNRaw x).truthy)))) ∧
    (asListV (getKey d "tasks") = [t] → taskPNRaw t = .int 0 →
      getTaskProtocolNumberAll d = .pnone) := by
  constructor
  · have hp : pnNumbers (setKey d "tasks"
        (.list ((asListV (getKey d "tasks")).filter (fun x => (taskPNRaw x).truthy)))) =
        pnNumbers d := by
      unfold pnNumbers
      rw [getKey_setKey_self]
      show ((((asListV (getKey d "tasks")).filter (fun x => (taskPNRaw x).truthy)).map
        taskPNRaw).filter Val.truthy).map toIntPy = _
      rw [filter_truthy_map_comm]
    unfold getTaskProtocolNumberAll
    rw [hp]
  · intro hts hpn
    unfold getTaskProtocolNumberAll pnNumbers
    rw [hts]
    simp [hpn, Val.truthy]

/-- Claim C10, witness: a single task with `protocol_number` 0 gives None. -/
theorem C10_protocol_number_omits_falsy_witness :
    getTaskProtocolNumberAll
      [("tasks", Val.list [Val.dict [("p1", Val.dict [("protocol_number", Val.int 0)])]])] =
      .pnone :=
  (C10_protocol_number_omits_falsy
    [("tasks", Val.list [Val.dict [("p1", Val.dict [("protocol_number", Val.int 0)])]])]
    (Val.dict [("p1", Val.dict [("protocol_number", Val.int 0)])])).2 rfl rfl

end Ibllib
